import Mathlib

/-!
Verification of the trading-strategy client's documented behaviour.

The corpus under review ships documentation (Sphinx pages, a changelog,
packaging metadata) but not the Python implementation modules themselves.
Where a definition below embeds behaviour whose implementation is absent
from the corpus, its doc comment starts with "Modelled from the spec:" and
names the missing piece; the definition then follows the specification's
words (and the documentation pages shipped in the corpus) as closely as
possible.  Where the corpus itself contains the deciding material (the
documented download example, the troubleshooting page, the reference-pricing
page), the definition is a direct shallow embedding of that material.
-/

namespace TradingStrategy

/-- One OHLCV row of the flat candle table: it belongs to exactly one trading
pair (`pair_id`) and one time bucket (`timestamp`, seconds since epoch), and
carries open/high/low/close/volume (prices as scaled integers). -/
structure Candle where
  pair_id : Nat
  timestamp : Nat
  openPrice : Int
  highPrice : Int
  lowPrice : Int
  closePrice : Int
  volume : Int
deriving DecidableEq

/-- The flat table has no two rows with the same (pair_id, timestamp) key:
one candle per pair per time bucket. -/
def uniqueKeys (rows : List Candle) : Prop :=
  rows.Pairwise (fun a b => a.pair_id = b.pair_id → a.timestamp ≠ b.timestamp)

instance uniqueKeys.instDecidable (rows : List Candle) : Decidable (uniqueKeys rows) :=
  List.instDecidablePairwise rows

/-- Modelled from the spec: the `PairGroupedUniverse` index build is not in the
corpus (only the changelog note recording that its sort order was fixed from
`pair_id, timestamp` to `timestamp`).  Per the spec, entity identity is used
only to partition the flat table, and within each entity group rows are sorted
by timestamp ascending. -/
def get_samples_by_pair (rows : List Candle) (pair : Nat) : List Candle :=
  List.insertionSort (fun a b => a.timestamp ≤ b.timestamp)
    (rows.filter (fun c => c.pair_id == pair))

/-- Every row of a pair's grouped series carries that pair's id. -/
lemma mem_get_samples_by_pair {rows : List Candle} {pair : Nat} {c : Candle}
    (hc : c ∈ get_samples_by_pair rows pair) : c.pair_id = pair := by
  unfold get_samples_by_pair at hc
  rw [List.mem_insertionSort] at hc
  simpa using (List.of_mem_filter hc)

/-- A pair's grouped series is a permutation of that pair's rows of the flat
table: candles of other entities never enter it. -/
lemma get_samples_by_pair_perm (rows : List Candle) (pair : Nat) :
    (get_samples_by_pair rows pair).Perm (rows.filter (fun c => c.pair_id == pair)) :=
  List.perm_insertionSort _ _

/-- A pair's grouped series is sorted by timestamp (non-strictly, with no
hypotheses on the input table). -/
lemma get_samples_by_pair_sorted (rows : List Candle) (pair : Nat) :
    (get_samples_by_pair rows pair).Pairwise (fun a b => a.timestamp ≤ b.timestamp) := by
  have htot : IsTotal Candle (fun a b => a.timestamp ≤ b.timestamp) :=
    ⟨fun a b => Nat.le_total a.timestamp b.timestamp⟩
  have htrans : IsTrans Candle (fun a b => a.timestamp ≤ b.timestamp) :=
    ⟨fun _ _ _ hab hbc => Nat.le_trans hab hbc⟩
  exact List.sorted_insertionSort _ _

/-- With unique (pair_id, timestamp) keys in the flat table, a pair's grouped
series has pairwise distinct timestamps. -/
lemma get_samples_by_pair_ne (rows : List Candle) (pair : Nat)
    (hkeys : uniqueKeys rows) :
    (get_samples_by_pair rows pair).Pairwise (fun a b => a.timestamp ≠ b.timestamp) := by
  have hfilter : (rows.filter (fun c => c.pair_id == pair)).Pairwise
      (fun a b => a.pair_id = b.pair_id → a.timestamp ≠ b.timestamp) :=
    List.Pairwise.sublist (List.filter_sublist rows) hkeys
  have hfilter' : (rows.filter (fun c => c.pair_id == pair)).Pairwise
      (fun a b => a.timestamp ≠ b.timestamp) := by
    refine List.Pairwise.imp_of_mem ?_ hfilter
    intro a b ha hb h
    have hpa : a.pair_id = pair := by simpa using (List.of_mem_filter ha)
    have hpb : b.pair_id = pair := by simpa using (List.of_mem_filter hb)
    exact h (hpa.trans hpb.symm)
  exact ((get_samples_by_pair_perm rows pair).pairwise_iff
    (fun {_ _} h => Ne.symm h)).mpr hfilter'

/-- With unique keys, a pair's grouped series is strictly increasing in
timestamp. -/
lemma get_samples_by_pair_strict (rows : List Candle) (pair : Nat)
    (hkeys : uniqueKeys rows) :
    (get_samples_by_pair rows pair).Pairwise (fun a b => a.timestamp < b.timestamp) := by
  have hle := get_samples_by_pair_sorted rows pair
  have hne := get_samples_by_pair_ne rows pair hkeys
  have := hle.and hne
  exact this.imp (fun h => Nat.lt_of_le_of_ne h.1 h.2)

/-- C1: for every grouped universe built from a flat table with unique
(pair_id, timestamp) keys and every trading pair, the candle sequence returned
for that pair is strictly increasing in timestamp with no duplicates; every
returned row belongs to that pair; and the sequence is a permutation of
exactly that pair's rows ordered by timestamp alone, so entity identity acts
only as a partitioning key and never leaks into the access order. -/
theorem grouped_series_strictly_increasing (rows : List Candle) (pair : Nat)
    (hkeys : uniqueKeys rows) :
    (get_samples_by_pair rows pair).Chain' (fun a b => a.timestamp < b.timestamp)
    ∧ (∀ c ∈ get_samples_by_pair rows pair, c.pair_id = pair)
    ∧ (get_samples_by_pair rows pair).Perm
        (rows.filter (fun c => c.pair_id == pair)) := by
  refine ⟨(get_samples_by_pair_strict rows pair hkeys).chain', ?_, ?_⟩
  · intro c hc
    exact mem_get_samples_by_pair hc
  · exact get_samples_by_pair_perm rows pair

/-- Concrete run of C1 on a three-row table with two pairs, rows arriving out
of timestamp order. -/
theorem grouped_series_strictly_increasing_witness :
    uniqueKeys [⟨1, 200, 5, 6, 4, 5, 10⟩, ⟨1, 100, 3, 4, 2, 3, 20⟩, ⟨2, 150, 7, 8, 6, 7, 30⟩]
    ∧ ((get_samples_by_pair [⟨1, 200, 5, 6, 4, 5, 10⟩, ⟨1, 100, 3, 4, 2, 3, 20⟩, ⟨2, 150, 7, 8, 6, 7, 30⟩] 1).Chain'
          (fun a b => a.timestamp < b.timestamp)
        ∧ (∀ c ∈ get_samples_by_pair [⟨1, 200, 5, 6, 4, 5, 10⟩, ⟨1, 100, 3, 4, 2, 3, 20⟩, ⟨2, 150, 7, 8, 6, 7, 30⟩] 1, c.pair_id = 1)
        ∧ (get_samples_by_pair [⟨1, 200, 5, 6, 4, 5, 10⟩, ⟨1, 100, 3, 4, 2, 3, 20⟩, ⟨2, 150, 7, 8, 6, 7, 30⟩] 1).Perm
            ([⟨1, 200, 5, 6, 4, 5, 10⟩, ⟨1, 100, 3, 4, 2, 3, 20⟩, ⟨2, 150, 7, 8, 6, 7, 30⟩].filter (fun c => c.pair_id == 1))) :=
  ⟨by decide,
    grouped_series_strictly_increasing
      [⟨1, 200, 5, 6, 4, 5, 10⟩, ⟨1, 100, 3, 4, 2, 3, 20⟩, ⟨2, 150, 7, 8, 6, 7, 30⟩] 1 (by decide)⟩

/-- A candle is within the tolerance window of a query: at or before the query
timestamp, and no older than the query timestamp minus the tolerance. -/
def tolMatch (whenTs tolerance : Nat) (c : Candle) : Bool :=
  c.timestamp ≤ whenTs && whenTs ≤ c.timestamp + tolerance

/-- Modelled from the spec: `GroupedCandleUniverse.get_price_with_tolerance` is
not in the corpus (only changelog notes).  Per the spec, nearest-match lookup
returns the latest sample at or before the query timestamp and within the
caller-specified tolerance window, and a "no data available" result (`none`)
otherwise — never a sample from the future of the query timestamp. -/
def get_price_with_tolerance (series : List Candle) (whenTs tolerance : Nat) :
    Option Candle :=
  (series.filter (tolMatch whenTs tolerance)).getLast?

/-- Modelled from the spec: exact-timestamp lookup over a pair's series (the
fast path of `get_price_with_tolerance` and of `get_candles_by_pair`-style
accessors): the record whose timestamp equals the query timestamp, if any. -/
def get_sample_by_timestamp (series : List Candle) (whenTs : Nat) : Option Candle :=
  series.find? (fun c => c.timestamp == whenTs)

/-- C2: for every series, query timestamp and tolerance window, the
nearest-timestamp lookup never returns a record whose timestamp is later than
the query timestamp; and when no record at or before the query timestamp
exists at all (hence no exact match and no prior record), the lookup returns
the "no data available" result rather than a future record. -/
theorem price_lookup_no_lookahead (series : List Candle) (whenTs tolerance : Nat) :
    (∀ c, get_price_with_tolerance series whenTs tolerance = some c →
        c.timestamp ≤ whenTs)
    ∧ ((∀ c ∈ series, whenTs < c.timestamp) →
        get_price_with_tolerance series whenTs tolerance = none) := by
  constructor
  · intro c hc
    have hmem : c ∈ series.filter (tolMatch whenTs tolerance) :=
      List.mem_of_mem_getLast? hc
    have hmatch : tolMatch whenTs tolerance c = true := (List.mem_filter.mp hmem).2
    simp only [tolMatch, Bool.and_eq_true, decide_eq_true_eq] at hmatch
    exact hmatch.1
  · intro hall
    have hnil : series.filter (tolMatch whenTs tolerance) = [] := by
      refine List.filter_eq_nil_iff.mpr ?_
      intro c hc
      have := hall c hc
      simp only [tolMatch, Bool.and_eq_true, decide_eq_true_eq, not_and]
      intro hle
      omega
    simp [get_price_with_tolerance, hnil]

/-- Concrete run of C2: with a single candle at timestamp 20, a query at
timestamp 10 (tolerance 5) yields no data, and a query at timestamp 25 yields
the candle at 20, whose timestamp is at most 25. -/
theorem price_lookup_no_lookahead_witness :
    get_price_with_tolerance [⟨1, 20, 1, 1, 1, 1, 1⟩] 10 5 = none
    ∧ (⟨1, 20, 1, 1, 1, 1, 1⟩ : Candle).timestamp ≤ 25 :=
  ⟨(price_lookup_no_lookahead [⟨1, 20, 1, 1, 1, 1, 1⟩] 10 5).2 (by decide),
    (price_lookup_no_lookahead [⟨1, 20, 1, 1, 1, 1, 1⟩] 25 5).1
      ⟨1, 20, 1, 1, 1, 1, 1⟩ (by decide)⟩

/-- In a strictly timestamp-sorted series containing a record at the query
timestamp, the tolerance filter keeps that record last. -/
lemma filter_tolMatch_getLast?_of_exact (whenTs tolerance : Nat) :
    ∀ {series : List Candle},
      series.Pairwise (fun a b => a.timestamp < b.timestamp) →
      ∀ {c₀ : Candle}, c₀ ∈ series → c₀.timestamp = whenTs →
      (series.filter (tolMatch whenTs tolerance)).getLast? = some c₀ := by
  intro series
  induction series with
  | nil =>
    intro _ c₀ hmem
    cases hmem
  | cons a tl ih =>
    intro hp c₀ hmem hts
    have hp' := List.pairwise_cons.mp hp
    rcases List.mem_cons.mp hmem with rfl | hmem'
    · have htl : tl.filter (tolMatch whenTs tolerance) = [] := by
        refine List.filter_eq_nil_iff.mpr ?_
        intro c hc
        have hlt : c₀.timestamp < c.timestamp := hp'.1 c hc
        simp only [tolMatch, Bool.and_eq_true, decide_eq_true_eq, not_and]
        intro hle
        omega
      have hpa : tolMatch whenTs tolerance c₀ = true := by
        simp only [tolMatch, Bool.and_eq_true, decide_eq_true_eq]
        omega
      simp [List.filter_cons, hpa, htl]
    · have hrec := ih hp'.2 hmem' hts
      rcases hl : tl.filter (tolMatch whenTs tolerance) with _ | ⟨b, bs⟩
      · rw [hl] at hrec
        simp at hrec
      · rw [hl] at hrec
        by_cases hpa : tolMatch whenTs tolerance a = true
        · rw [List.filter_cons_of_pos hpa, hl]
          exact hrec
        · rw [List.filter_cons_of_neg (by simpa using hpa), hl]
          exact hrec

/-- In a strictly timestamp-sorted series containing a record at the query
timestamp, exact lookup finds exactly that record. -/
lemma find?_timestamp_of_exact (whenTs : Nat) :
    ∀ {series : List Candle},
      series.Pairwise (fun a b => a.timestamp < b.timestamp) →
      ∀ {c₀ : Candle}, c₀ ∈ series → c₀.timestamp = whenTs →
      get_sample_by_timestamp series whenTs = some c₀ := by
  intro series
  induction series with
  | nil =>
    intro _ c₀ hmem
    cases hmem
  | cons a tl ih =>
    intro hp c₀ hmem hts
    have hp' := List.pairwise_cons.mp hp
    rcases List.mem_cons.mp hmem with rfl | hmem'
    · unfold get_sample_by_timestamp
      rw [List.find?_cons_of_pos _ (by simpa using hts)]
    · have hlt : a.timestamp < c₀.timestamp := hp'.1 c₀ hmem'
      unfold get_sample_by_timestamp
      rw [List.find?_cons_of_neg _ (by simp; omega)]
      exact ih hp'.2 hmem' hts

/-- C8: for every grouped universe built from a table with unique keys, every
pair and every tolerance window, when the query timestamp exactly matches a
record's timestamp in the pair's series, the tolerance lookup returns the very
same record as the exact lookup at that timestamp. -/
theorem tolerance_lookup_agrees_with_exact_lookup (rows : List Candle)
    (pair : Nat) (whenTs tolerance : Nat) (c₀ : Candle)
    (hkeys : uniqueKeys rows)
    (hmem : c₀ ∈ get_samples_by_pair rows pair)
    (hts : c₀.timestamp = whenTs) :
    get_price_with_tolerance (get_samples_by_pair rows pair) whenTs tolerance
      = get_sample_by_timestamp (get_samples_by_pair rows pair) whenTs
    ∧ get_price_with_tolerance (get_samples_by_pair rows pair) whenTs tolerance
      = some c₀ := by
  have hsorted := get_samples_by_pair_strict rows pair hkeys
  have h1 : get_price_with_tolerance (get_samples_by_pair rows pair) whenTs tolerance
      = some c₀ :=
    filter_tolMatch_getLast?_of_exact whenTs tolerance hsorted hmem hts
  have h2 : get_sample_by_timestamp (get_samples_by_pair rows pair) whenTs
      = some c₀ :=
    find?_timestamp_of_exact whenTs hsorted hmem hts
  exact ⟨h1.trans h2.symm, h1⟩

/-- Concrete run of C8 on a two-candle series: an exact hit at timestamp 200
is returned identically by both lookups. -/
theorem tolerance_lookup_agrees_with_exact_lookup_witness :
    get_price_with_tolerance
        (get_samples_by_pair [⟨1, 200, 5, 6, 4, 5, 10⟩, ⟨1, 100, 3, 4, 2, 3, 20⟩] 1) 200 7
      = get_sample_by_timestamp
        (get_samples_by_pair [⟨1, 200, 5, 6, 4, 5, 10⟩, ⟨1, 100, 3, 4, 2, 3, 20⟩] 1) 200
    ∧ get_price_with_tolerance
        (get_samples_by_pair [⟨1, 200, 5, 6, 4, 5, 10⟩, ⟨1, 100, 3, 4, 2, 3, 20⟩] 1) 200 7
      = some ⟨1, 200, 5, 6, 4, 5, 10⟩ :=
  tolerance_lookup_agrees_with_exact_lookup
    [⟨1, 200, 5, 6, 4, 5, 10⟩, ⟨1, 100, 3, 4, 2, 3, 20⟩] 1 200 7
    ⟨1, 200, 5, 6, 4, 5, 10⟩ (by decide) (by decide) (by decide)

/-- Modelled from the spec: `is_stablecoin_like` is not in the corpus (only a
changelog note); it recognises the well-known USD stablecoin symbols. -/
def is_stablecoin_like (t : String) : Bool :=
  ["USDC", "USDT", "DAI", "BUSD"].contains t

/-- Symbols of the Bitcoin token (native and wrapped). -/
def btc_tokens : List String :=
  ["BTC", "WBTC"]

/-- Symbols of the Ether token (native and wrapped). -/
def eth_tokens : List String :=
  ["ETH", "WETH"]

/-- Modelled from the spec and the reference-pricing page of the corpus: the
fixed priority used to pick a pair's quote token — a USD stablecoin first,
then BTC, then ETH, then the other designated high-liquidity tokens (BNB,
MATIC, Cake, Quick); `none` for a token not on the priority list. -/
def quote_token_priority (t : String) : Option Nat :=
  if is_stablecoin_like t then some 0
  else if btc_tokens.contains t then some 1
  else if eth_tokens.contains t then some 2
  else if t == "BNB" then some 3
  else if t == "MATIC" then some 4
  else if t == "Cake" then some 5
  else if t == "Quick" then some 6
  else none

/-- Modelled from the spec: the base/quote resolver over an unordered token
pair is not in the corpus (only its description).  It returns the canonical
(base, quote) assignment, choosing as quote the token with the better (lower)
priority on the fixed list, and `none` ("no reference price", pair excluded
from USD-denominated aggregation) when neither token is on the list. -/
def resolve_base_quote (a b : String) : Option (String × String) :=
  match quote_token_priority a, quote_token_priority b with
  | some pa, some pb => if pa ≤ pb then some (b, a) else some (a, b)
  | some _, none => some (b, a)
  | none, some _ => some (a, b)
  | none, none => none

/-- The quote side picked by the resolver is always on the priority list, and
its priority is at least as good as the base side's, whenever the base side is
on the list at all. -/
lemma resolve_base_quote_quote_on_list (a b base quote : String)
    (h : resolve_base_quote a b = some (base, quote)) :
    (quote_token_priority quote).isSome = true
    ∧ ∀ pb, quote_token_priority base = some pb →
        ∃ pq, quote_token_priority quote = some pq ∧ pq ≤ pb := by
  unfold resolve_base_quote at h
  rcases ha : quote_token_priority a with _ | pa <;>
    rcases hb : quote_token_priority b with _ | pb <;>
      rw [ha, hb] at h <;> dsimp only at h
  · simp at h
  · simp only [Option.some.injEq, Prod.mk.injEq] at h
    obtain ⟨rfl, rfl⟩ := h
    constructor
    · simp [hb]
    · intro p hp
      rw [ha] at hp
      cases hp
  · simp only [Option.some.injEq, Prod.mk.injEq] at h
    obtain ⟨rfl, rfl⟩ := h
    constructor
    · simp [ha]
    · intro p hp
      rw [hb] at hp
      cases hp
  · by_cases hle : pa ≤ pb
    · rw [if_pos hle] at h
      simp only [Option.some.injEq, Prod.mk.injEq] at h
      obtain ⟨rfl, rfl⟩ := h
      refine ⟨by simp [ha], ?_⟩
      intro p hp
      rw [hb] at hp
      cases hp
      exact ⟨pa, ha, hle⟩
    · rw [if_neg hle] at h
      simp only [Option.some.injEq, Prod.mk.injEq] at h
      obtain ⟨rfl, rfl⟩ := h
      refine ⟨by simp [hb], ?_⟩
      intro p hp
      rw [ha] at hp
      cases hp
      exact ⟨pb, hb, by omega⟩

/-- C3: the resolver picks the quote side by the fixed priority list: for
(USDC, WETH), in either input order, USDC is the quote; for a pair of tokens
neither of which is on the priority list the result is "no reference price"
(`none`), never an arbitrary side; and whenever a pair resolves, its quote
token is on the priority list with a priority at least as good as the base
token's. -/
theorem quote_token_resolution_by_priority :
    resolve_base_quote "USDC" "WETH" = some ("WETH", "USDC")
    ∧ resolve_base_quote "WETH" "USDC" = some ("WETH", "USDC")
    ∧ resolve_base_quote "RANDOMTOKEN_A" "RANDOMTOKEN_B" = none
    ∧ (∀ a b, quote_token_priority a = none → quote_token_priority b = none →
        resolve_base_quote a b = none)
    ∧ (∀ a b base quote, resolve_base_quote a b = some (base, quote) →
        (quote_token_priority quote).isSome = true
        ∧ ∀ pb, quote_token_priority base = some pb →
            ∃ pq, quote_token_priority quote = some pq ∧ pq ≤ pb) := by
  refine ⟨by decide, by decide, by decide, ?_, ?_⟩
  · intro a b ha hb
    unfold resolve_base_quote
    rw [ha, hb]
  · intro a b base quote h
    exact resolve_base_quote_quote_on_list a b base quote h

/-- Concrete run of C3's universally quantified parts: two unlisted tokens
resolve to no reference price, and a resolved (AAVE, ETH) pair has its quote
token ETH on the priority list. -/
theorem quote_token_resolution_by_priority_witness :
    resolve_base_quote "FOO" "BAR" = none
    ∧ (quote_token_priority "ETH").isSome = true :=
  ⟨quote_token_resolution_by_priority.2.2.2.1 "FOO" "BAR" (by decide) (by decide),
    (quote_token_resolution_by_priority.2.2.2.2 "AAVE" "ETH" "AAVE" "ETH" (by decide)).1⟩

/-- Where a quote token's USD reference price comes from: a specific on-chain
pool, an off-chain centralised exchange, or the assumed 1:1 parity of a USD
stablecoin with the dollar. -/
inductive PriceSource
  | onChainPool (chain pool : String)
  | offChainExchange (venue : String)
  | stablecoinParity
deriving DecidableEq

/-- Whether the source is an on-chain truth for the dollar price (a pool, or
the stablecoin itself standing in for the dollar on-chain). -/
def PriceSource.isOnChain : PriceSource → Bool
  | .onChainPool _ _ => true
  | .offChainExchange _ => false
  | .stablecoinParity => true

/-- Modelled from the spec and the reference-pricing page of the corpus
(Internal oracle process, reference price v0): the direct USD reference price
source of each supported quote token.  All sources are on-chain pools on the
chain where the asset trades — with two documented special cases: USD
stablecoins are assumed to trade 1:1 with the dollar, and BTC/USD comes from
the Bitstamp exchange, off-chain. -/
def reference_price_source (t : String) : Option PriceSource :=
  if is_stablecoin_like t then some .stablecoinParity
  else if btc_tokens.contains t then some (.offChainExchange "Bitstamp")
  else if eth_tokens.contains t then some (.onChainPool "ethereum" "ETH-USDC Uniswap v2")
  else if t == "BNB" then some (.onChainPool "binance-smart-chain" "BNB-USD pool")
  else if t == "MATIC" then some (.onChainPool "polygon" "MATIC-USD pool")
  else if t == "Cake" then some (.onChainPool "binance-smart-chain" "Cake-USD pool")
  else if t == "Quick" then some (.onChainPool "polygon" "QUICK-USD pool")
  else none

/-- A token is a supported quote token exactly when it is on the quote
priority list. -/
def is_supported_quote_token (t : String) : Bool :=
  (quote_token_priority t).isSome

/-- A supported quote token always has a reference price source. -/
lemma reference_price_source_isSome (t : String)
    (ht : is_supported_quote_token t = true) :
    (reference_price_source t).isSome = true := by
  unfold is_supported_quote_token quote_token_priority at ht
  unfold reference_price_source
  split_ifs at ht ⊢ <;> simp_all

/-- C9 counterexample: BTC is a supported quote token (second on the priority
list), yet its USD reference price source is the Bitstamp exchange, which is
not an on-chain price source — so not every supported quote token has a
direct on-chain price source. -/
theorem btc_reference_price_is_off_chain :
    is_supported_quote_token "BTC" = true
    ∧ reference_price_source "BTC" = some (.offChainExchange "Bitstamp")
    ∧ (PriceSource.offChainExchange "Bitstamp").isOnChain = false := by
  refine ⟨by decide, ?_, by decide⟩
  decide

/-- C9 as amended: every supported quote token has a direct (single-hop) USD
reference price source — on-chain for all of them except BTC, whose USD price
comes off-chain from Bitstamp — and multi-hop resolution through an
intermediate token is never performed: every resolved pair's quote token has
its own direct price source, so no pair's USD price is derived through an
intermediate token's price. -/
theorem quote_tokens_have_direct_price_source :
    (∀ t, is_supported_quote_token t = true →
        (reference_price_source t).isSome = true)
    ∧ (∀ t s, reference_price_source t = some s →
        btc_tokens.contains t = false → s.isOnChain = true)
    ∧ (∀ a b base quote, resolve_base_quote a b = some (base, quote) →
        (reference_price_source quote).isSome = true) := by
  refine ⟨reference_price_source_isSome, ?_, ?_⟩
  · intro t s hs hbtc
    unfold reference_price_source at hs
    split_ifs at hs with h1 h2 h3 h4 h5 h6 h7
    · cases hs
      decide
    · rw [h2] at hbtc
      cases hbtc
    all_goals
      cases hs
      decide
  · intro a b base quote h
    have hq := (resolve_base_quote_quote_on_list a b base quote h).1
    exact reference_price_source_isSome quote hq

/-- Concrete run of C9 (amended): ETH is a supported quote token with a
direct source; that source, the ETH-USDC Uniswap v2 pool, is on-chain; and the
resolved pair (AAVE, ETH) has a directly priced quote token. -/
theorem quote_tokens_have_direct_price_source_witness :
    (reference_price_source "ETH").isSome = true
    ∧ (PriceSource.onChainPool "ethereum" "ETH-USDC Uniswap v2").isOnChain = true
    ∧ (reference_price_source "ETH").isSome = true :=
  ⟨quote_tokens_have_direct_price_source.1 "ETH" (by decide),
    quote_tokens_have_direct_price_source.2.1 "ETH"
      (.onChainPool "ethereum" "ETH-USDC Uniswap v2") (by decide) (by decide),
    quote_tokens_have_direct_price_source.2.2 "AAVE" "ETH" "AAVE" "ETH" (by decide)⟩

/-- A downloaded cache file: the rows its Parquet payload encodes, and whether
the download completed (a truncated partial download lacks the Parquet magic
bytes in the footer). -/
structure CacheFile where
  rows : List Candle
  complete : Bool
deriving DecidableEq

/-- The parser error text the troubleshooting page of the corpus documents for
a truncated cache file: the raw pyarrow OSError the caller sees. -/
def parquet_magic_error_text : String :=
  "Could not open parquet input source: Invalid: Parquet magic bytes not found in footer. Either the file is corrupted or this is not a parquet file."

/-- The failure a read of a cache file can surface: the parsing library's
generic OSError, or a distinct corrupt-dataset error type.  The corpus
documents only the former; the latter is included so the specification's
claim about it can be stated. -/
inductive ReadFailure
  | osError (msg : String)
  | corruptDatasetError (msg : String)
deriving DecidableEq

/-- Whether the failure is the parsing library's generic error. -/
def ReadFailure.isGenericOsError : ReadFailure → Bool
  | .osError _ => true
  | .corruptDatasetError _ => false

/-- Whether the failure is a distinct corrupt-dataset error. -/
def ReadFailure.isCorruptDatasetKind : ReadFailure → Bool
  | .osError _ => false
  | .corruptDatasetError _ => true

/-- Modelled from the spec and the troubleshooting page of the corpus: the
Parquet reader itself is not in the corpus; the troubleshooting page documents
what a read of a malformed or truncated cache file surfaces — the raw pyarrow
OSError about missing Parquet magic bytes, with the remediation (remove the
cache directory and redownload) given by the documentation, not by a distinct
exception type. -/
def read_parquet (f : CacheFile) : Except ReadFailure (List Candle) :=
  if f.complete then .ok f.rows
  else .error (.osError parquet_magic_error_text)

/-- Modelled from the spec and the troubleshooting page of the corpus:
clearing the download cache removes the corrupt file, and redownloading
produces a complete cache file holding the server payload. -/
def clear_cache_and_redownload (serverRows : List Candle) : CacheFile :=
  { rows := serverRows, complete := true }

/-- C4 counterexample: reading a concrete truncated cache file (a partial
download) surfaces the generic pyarrow OSError, not a distinct corrupt-dataset
error — refuting the claim that such a read raises a distinct "corrupt
dataset" error and never a generic parse exception. -/
theorem truncated_cache_read_raises_generic_oserror :
    read_parquet { rows := [], complete := false }
      = .error (.osError parquet_magic_error_text)
    ∧ (ReadFailure.osError parquet_magic_error_text).isGenericOsError = true
    ∧ (ReadFailure.osError parquet_magic_error_text).isCorruptDatasetKind = false := by
  exact ⟨rfl, rfl, rfl⟩

/-- C4 as amended: for every malformed or truncated cache file, the read
surfaces the parsing library's generic OSError (whose documented text names
the corruption); the remediation — clear the cache and retry — is given by the
troubleshooting documentation rather than a distinct error type; and after a
cache-clear followed by redownload the same read succeeds with the server's
rows. -/
theorem truncated_cache_read_error_and_redownload (f : CacheFile)
    (hf : f.complete = false) :
    read_parquet f = .error (.osError parquet_magic_error_text)
    ∧ (∀ e, read_parquet f = .error e → e.isGenericOsError = true)
    ∧ (∀ serverRows, read_parquet (clear_cache_and_redownload serverRows)
        = .ok serverRows) := by
  have hread : read_parquet f = .error (.osError parquet_magic_error_text) := by
    unfold read_parquet
    rw [hf]
    rfl
  refine ⟨hread, ?_, fun serverRows => rfl⟩
  intro e he
  rw [hread] at he
  cases he
  rfl

/-- Concrete run of C4 (amended) on a truncated file and a two-row
redownload. -/
theorem truncated_cache_read_error_and_redownload_witness :
    ({ rows := [⟨1, 100, 3, 4, 2, 3, 20⟩], complete := false } : CacheFile).complete = false
    ∧ read_parquet { rows := [⟨1, 100, 3, 4, 2, 3, 20⟩], complete := false }
        = .error (.osError parquet_magic_error_text) :=
  ⟨rfl,
    (truncated_cache_read_error_and_redownload
      { rows := [⟨1, 100, 3, 4, 2, 3, 20⟩], complete := false } rfl).1⟩

/-- The five distinct, catchable failure kinds of a dataset request. -/
inductive DatasetFailure
  | authenticationFailed
  | entityNotFound
  | downloadFailed
  | corruptCache
  | noDataAvailable
deriving DecidableEq

/-- What the server answers the k-th download attempt with: the dataset file,
an authentication rejection, a 404 for an unknown bucket/entity, or a
transient network failure. -/
inductive ServerReply
  | okFile (file : CacheFile)
  | unauthorized
  | missingEntity
  | transientFailure
deriving DecidableEq

/-- Modelled from the spec: the Client's default bounded HTTP retry policy is
not in the corpus (only its changelog note).  Per the spec, authentication and
not-found replies are surfaced immediately without retry, while a transient
failure is retried up to `budget` further times before being surfaced as a
download failure.  Returns the outcome and the number of attempts made. -/
def fetch_with_retry (server : Nat → ServerReply) (attempt : Nat) :
    Nat → Except DatasetFailure CacheFile × Nat
  | 0 =>
    match server attempt with
    | .okFile file => (.ok file, 1)
    | .unauthorized => (.error .authenticationFailed, 1)
    | .missingEntity => (.error .entityNotFound, 1)
    | .transientFailure => (.error .downloadFailed, 1)
  | budget + 1 =>
    match server attempt with
    | .okFile file => (.ok file, 1)
    | .unauthorized => (.error .authenticationFailed, 1)
    | .missingEntity => (.error .entityNotFound, 1)
    | .transientFailure =>
      let r := fetch_with_retry server (attempt + 1) budget
      (r.1, r.2 + 1)

/-- Modelled from the spec: a full dataset request — download with bounded
retry, parse the cached file (a truncated download surfaces the corrupt-cache
condition), filter to the requested closed timestamp range, and surface
`noDataAvailable` instead of returning an empty result. -/
def request_dataset (server : Nat → ServerReply) (budget startTs endTs : Nat) :
    Except DatasetFailure (List Candle) :=
  match (fetch_with_retry server 0 budget).1 with
  | .error e => .error e
  | .ok file =>
    match read_parquet file with
    | .error _ => .error .corruptCache
    | .ok rows =>
      if (rows.filter (fun c => startTs ≤ c.timestamp && c.timestamp ≤ endTs)).isEmpty then
        .error .noDataAvailable
      else
        .ok (rows.filter (fun c => startTs ≤ c.timestamp && c.timestamp ≤ endTs))

/-- For a non-transient first reply, the fetch returns after one attempt,
regardless of the retry budget. -/
lemma fetch_with_retry_first_reply (server : Nat → ServerReply)
    (attempt budget : Nat) :
    (server attempt = .unauthorized →
      fetch_with_retry server attempt budget = (.error .authenticationFailed, 1))
    ∧ (server attempt = .missingEntity →
      fetch_with_retry server attempt budget = (.error .entityNotFound, 1))
    ∧ (∀ file, server attempt = .okFile file →
      fetch_with_retry server attempt budget = (.ok file, 1)) := by
  cases budget with
  | zero =>
    refine ⟨?_, ?_, ?_⟩ <;>
      first
      | (intro h
         simp only [fetch_with_retry]
         rw [h])
      | (intro file h
         simp only [fetch_with_retry]
         rw [h])
  | succ b =>
    refine ⟨?_, ?_, ?_⟩ <;>
      first
      | (intro h
         simp only [fetch_with_retry]
         rw [h])
      | (intro file h
         simp only [fetch_with_retry]
         rw [h])

/-- The retrying fetch never makes more than `budget + 1` attempts. -/
lemma fetch_with_retry_attempts_le (server : Nat → ServerReply) :
    ∀ budget attempt, (fetch_with_retry server attempt budget).2 ≤ budget + 1 := by
  intro budget
  induction budget with
  | zero =>
    intro attempt
    simp only [fetch_with_retry]
    cases server attempt <;> simp
  | succ b ih =>
    intro attempt
    simp only [fetch_with_retry]
    cases server attempt <;> simp
    exact ih (attempt + 1)

/-- If every attempt fails transiently, the fetch exhausts the whole retry
budget and surfaces a download failure. -/
lemma fetch_with_retry_all_transient (server : Nat → ServerReply)
    (hts : ∀ k, server k = .transientFailure) :
    ∀ budget attempt,
      fetch_with_retry server attempt budget
        = (.error .downloadFailed, budget + 1) := by
  intro budget
  induction budget with
  | zero =>
    intro attempt
    simp only [fetch_with_retry]
    rw [hts attempt]
  | succ b ih =>
    intro attempt
    simp only [fetch_with_retry]
    rw [hts attempt]
    dsimp only
    rw [ih (attempt + 1)]

/-- C5: the five failure kinds of a dataset request are pairwise distinct,
catchable conditions, and each failure is surfaced as exactly the right one:
an authentication rejection and a server-side not-found surface immediately
after a single attempt with no retry; the number of attempts is always bounded
by the retry budget plus one; a persistent transient failure exhausts the
budget and surfaces as a download failure; a truncated cached download
surfaces as the corrupt-cache condition; a valid request whose range holds no
data surfaces as data-unavailable; and a successful result is never the empty
list. -/
theorem dataset_request_error_taxonomy (server : Nat → ServerReply)
    (budget startTs endTs : Nat) :
    ([DatasetFailure.authenticationFailed, .entityNotFound, .downloadFailed,
        .corruptCache, .noDataAvailable].Pairwise (· ≠ ·))
    ∧ (server 0 = .unauthorized →
        fetch_with_retry server 0 budget = (.error .authenticationFailed, 1)
        ∧ request_dataset server budget startTs endTs = .error .authenticationFailed)
    ∧ (server 0 = .missingEntity →
        fetch_with_retry server 0 budget = (.error .entityNotFound, 1)
        ∧ request_dataset server budget startTs endTs = .error .entityNotFound)
    ∧ (fetch_with_retry server 0 budget).2 ≤ budget + 1
    ∧ ((∀ k, server k = .transientFailure) →
        request_dataset server budget startTs endTs = .error .downloadFailed
        ∧ (fetch_with_retry server 0 budget).2 = budget + 1)
    ∧ (∀ file, server 0 = .okFile file → file.complete = false →
        request_dataset server budget startTs endTs = .error .corruptCache)
    ∧ (∀ file, server 0 = .okFile file → file.complete = true →
        (file.rows.filter
            (fun c => startTs ≤ c.timestamp && c.timestamp ≤ endTs)).isEmpty = true →
        request_dataset server budget startTs endTs = .error .noDataAvailable)
    ∧ (∀ out, request_dataset server budget startTs endTs = .ok out → out ≠ []) := by
  refine ⟨by decide, ?_, ?_, fetch_with_retry_attempts_le server budget 0, ?_, ?_, ?_, ?_⟩
  · intro h0
    have h := (fetch_with_retry_first_reply server 0 budget).1 h0
    refine ⟨h, ?_⟩
    unfold request_dataset
    rw [h]
  · intro h0
    have h := (fetch_with_retry_first_reply server 0 budget).2.1 h0
    refine ⟨h, ?_⟩
    unfold request_dataset
    rw [h]
  · intro hts
    have h := fetch_with_retry_all_transient server hts budget 0
    constructor
    · unfold request_dataset
      rw [h]
    · rw [h]
  · intro file h0 hincomplete
    have h := (fetch_with_retry_first_reply server 0 budget).2.2 file h0
    unfold request_dataset
    rw [h]
    simp [read_parquet, hincomplete]
  · intro file h0 hcomplete hempty
    have h := (fetch_with_retry_first_reply server 0 budget).2.2 file h0
    unfold request_dataset
    rw [h]
    simp only [read_parquet, hcomplete]
    simp [hempty]
  · intro out hout
    unfold request_dataset at hout
    split at hout
    · cases hout
    · split at hout
      · cases hout
      · split at hout
        · cases hout
        · rename_i hsel
          cases hout
          intro hnil
          rw [hnil] at hsel
          simp at hsel

/-- Concrete run of C5: a server that always rejects authentication surfaces
the authentication failure after one attempt; a server that always fails
transiently exhausts a budget of 2 after 3 attempts; and a complete file with
no rows in the requested range surfaces data-unavailable. -/
theorem dataset_request_error_taxonomy_witness :
    fetch_with_retry (fun _ => ServerReply.unauthorized) 0 2
      = (.error .authenticationFailed, 1)
    ∧ request_dataset (fun _ => ServerReply.transientFailure) 2 0 1000
      = .error .downloadFailed
    ∧ request_dataset
        (fun _ => ServerReply.okFile { rows := [⟨1, 100, 3, 4, 2, 3, 20⟩], complete := true })
        2 300 400
      = .error .noDataAvailable :=
  ⟨((dataset_request_error_taxonomy (fun _ => ServerReply.unauthorized) 2 0 1000).2.1 rfl).1,
    ((dataset_request_error_taxonomy (fun _ => ServerReply.transientFailure) 2 0 1000).2.2.2.2.1
      (fun _ => rfl)).1,
    (dataset_request_error_taxonomy
        (fun _ => ServerReply.okFile { rows := [⟨1, 100, 3, 4, 2, 3, 20⟩], complete := true })
        2 300 400).2.2.2.2.2.2.1
      { rows := [⟨1, 100, 3, 4, 2, 3, 20⟩], complete := true } rfl rfl (by decide)⟩

/-- Identity of a dataset request: dataset kind, time-bucket granularity, and
an optional pair-id filter. -/
structure DatasetKey where
  kind : String
  bucket : String
  pairFilter : Option (List Nat)
deriving DecidableEq

/-- The cached transport's on-disk state: which dataset keys have a cache
entry under the cache root. -/
structure TransportState where
  cachedKeys : List DatasetKey
deriving DecidableEq

/-- Modelled from the spec: the `CachedHTTPTransport` cache lifecycle is not
in the corpus (only the docs' cache-directory page and changelog notes).  Per
the spec, a dataset request downloads exactly when the entry is absent or
invalidation was explicitly requested; a successful download creates the
entry; entries are never removed by a request.  Returns the new state and the
number of downloads performed. -/
def ensure_cached (st : TransportState) (k : DatasetKey) (invalidate : Bool) :
    TransportState × Nat :=
  if k ∈ st.cachedKeys ∧ invalidate = false then (st, 0)
  else
    ({ cachedKeys := if k ∈ st.cachedKeys then st.cachedKeys else k :: st.cachedKeys }, 1)

/-- Modelled from the spec: `Client.clear_caches` empties the cache root. -/
def clear_caches : TransportState :=
  { cachedKeys := [] }

/-- C7: a cache entry is created on first successful download and never
auto-expired: a request downloads exactly once when the entry is absent or
invalidation was requested and zero times otherwise; after clearing the cache
a request downloads exactly once, and the immediately repeated request
downloads zero times; a request leaves every existing entry in place and
leaves its own entry present. -/
theorem cache_entry_lifecycle (st : TransportState) (k : DatasetKey)
    (invalidate : Bool) :
    ((ensure_cached st k invalidate).2 = 1
        ↔ (k ∉ st.cachedKeys ∨ invalidate = true))
    ∧ ((ensure_cached st k invalidate).2 = 0
        ↔ (k ∈ st.cachedKeys ∧ invalidate = false))
    ∧ (ensure_cached clear_caches k false).2 = 1
    ∧ (ensure_cached (ensure_cached st k invalidate).1 k false).2 = 0
    ∧ (∀ j, j ∈ st.cachedKeys → j ∈ (ensure_cached st k invalidate).1.cachedKeys)
    ∧ k ∈ (ensure_cached st k invalidate).1.cachedKeys := by
  refine ⟨?_, ?_, ?_, ?_, ?_, ?_⟩
  · unfold ensure_cached
    by_cases hmem : k ∈ st.cachedKeys <;> cases invalidate <;> simp [hmem]
  · unfold ensure_cached
    by_cases hmem : k ∈ st.cachedKeys <;> cases invalidate <;> simp [hmem]
  · unfold ensure_cached clear_caches
    simp
  · unfold ensure_cached
    by_cases hmem : k ∈ st.cachedKeys <;> cases invalidate <;> simp [hmem]
  · unfold ensure_cached
    by_cases hmem : k ∈ st.cachedKeys <;> cases invalidate <;> simp [hmem] <;>
      exact fun j hj => Or.inr hj
  · unfold ensure_cached
    by_cases hmem : k ∈ st.cachedKeys <;> cases invalidate <;> simp [hmem]

/-- Concrete run of C7: with an empty cache, requesting a key downloads once
and re-requesting downloads zero times. -/
theorem cache_entry_lifecycle_witness :
    (ensure_cached clear_caches ⟨"candles", "1d", none⟩ false).2 = 1
    ∧ (ensure_cached
        (ensure_cached clear_caches ⟨"candles", "1d", none⟩ false).1
        ⟨"candles", "1d", none⟩ false).2 = 0 :=
  ⟨(cache_entry_lifecycle clear_caches ⟨"candles", "1d", none⟩ false).2.2.1,
    (cache_entry_lifecycle clear_caches ⟨"candles", "1d", none⟩ false).2.2.2.1⟩

/-- One step a cache-populating process takes under the write-to-temp-then-
atomic-rename discipline: append one chunk to its own private temp file, or
atomically rename its temp file over the shared final cache path.  `proc`
says which of the two processes acts. -/
inductive WriteStep
  | writeTempChunk (proc : Bool) (chunk : Nat)
  | renameTempOverFinal (proc : Bool)
deriving DecidableEq

/-- The cache directory as the two processes and any concurrent reader see
it: each process's private temp file content, and the shared final cache file
(`none` when no file is visible at the final path). -/
structure CacheDirState where
  tempA : List Nat
  tempB : List Nat
  final : Option (List Nat)
deriving DecidableEq

/-- The empty cache directory. -/
def initialCacheDir : CacheDirState :=
  { tempA := [], tempB := [], final := none }

/-- Modelled from the spec: the `CachedHTTPTransport` concurrent write control
is not in the corpus (only its changelog note).  Per the spec's
write-to-temp-then-atomic-rename discipline, a chunk write touches only the
writer's private temp file, and the rename atomically replaces the final path
with the writer's complete temp content in one step. -/
def applyStep (s : CacheDirState) : WriteStep → CacheDirState
  | .writeTempChunk proc chunk =>
    if proc then { s with tempA := s.tempA ++ [chunk] }
    else { s with tempB := s.tempB ++ [chunk] }
  | .renameTempOverFinal proc =>
    { s with final := some (if proc then s.tempA else s.tempB) }

/-- The step sequence of one process populating the cache with the dataset
`d`: stream every chunk of `d` into the private temp file in order, then
atomically rename it over the final path. -/
def procWriteSteps (d : List Nat) (proc : Bool) : List WriteStep :=
  d.map (WriteStep.writeTempChunk proc) ++ [WriteStep.renameTempOverFinal proc]

/-- Whether `t` is an interleaving of the two step sequences `xs` and `ys`
that preserves each sequence's own order — the schedules two independent
processes can produce. -/
def isInterleaving : List WriteStep → List WriteStep → List WriteStep → Bool
  | [], xs, ys => xs.isEmpty && ys.isEmpty
  | step :: t, xs, ys =>
    (match xs with
     | x :: xs' => if step = x then isInterleaving t xs' ys else false
     | [] => false)
    || (match ys with
        | y :: ys' => if step = y then isInterleaving t xs ys' else false
        | [] => false)

/-- A reader looking at the final cache path sees either no file at all or
the complete dataset — never a partial write. -/
def finalFileOk (d : List Nat) (s : CacheDirState) : Bool :=
  match s.final with
  | none => true
  | some content => content == d

/-- The cache directory states a reader can observe while a schedule runs
from `s`: the start state and the state after every step. -/
def statesAlong (s : CacheDirState) (trace : List WriteStep) : List CacheDirState :=
  trace.scanl applyStep s

/-- A schedule is safe for the dataset `d` when every observable state shows
an absent-or-complete final file, and the state after the last step shows the
complete final file. -/
def traceSafe (d : List Nat) (trace : List WriteStep) : Bool :=
  (statesAlong initialCacheDir trace).all (finalFileOk d)
    && ((trace.foldl applyStep initialCacheDir).final == some d)

/-- What remains for one writer of the dataset `d` mid-run: it has either
finished all its steps, or it still has to stream some suffix of `d` and then
rename, its temp file holding exactly the chunks already streamed. -/
def writerPending (d temp : List Nat) (steps : List WriteStep) (proc : Bool) : Prop :=
  steps = []
  ∨ ∃ rest, steps = rest.map (WriteStep.writeTempChunk proc)
        ++ [WriteStep.renameTempOverFinal proc]
      ∧ temp ++ rest = d

/-- Safety of every interleaved suffix: from any mid-run state whose two
writers are in a consistent pending shape, whose final file is absent or
complete, and where a finished writer implies a complete final file, every
remaining schedule keeps the final file absent-or-complete at each step and
ends with the complete final file. -/
lemma interleaving_run_safe (d : List Nat) :
    ∀ (t : List WriteStep), ∀ (s : CacheDirState) (xs ys : List WriteStep),
      isInterleaving t xs ys = true →
      writerPending d s.tempA xs true →
      writerPending d s.tempB ys false →
      (s.final = none ∨ s.final = some d) →
      (xs = [] → s.final = some d) →
      (ys = [] → s.final = some d) →
      (statesAlong s t).all (finalFileOk d) = true
      ∧ (t.foldl applyStep s).final = some d := by
  intro t
  induction t with
  | nil =>
    intro s xs ys hint hA hB hfin hxe hye
    simp only [isInterleaving, Bool.and_eq_true, List.isEmpty_iff] at hint
    have hfin' : s.final = some d := hxe hint.1
    refine ⟨?_, by simpa using hfin'⟩
    simp [statesAlong, finalFileOk, hfin']
  | cons step t ih =>
    intro s xs ys hint hA hB hfin hxe hye
    have hsok : finalFileOk d s = true := by
      rcases hfin with h | h <;> simp [finalFileOk, h]
    have hsteps : statesAlong s (step :: t) = s :: statesAlong (applyStep s step) t := by
      simp [statesAlong]
    have hfold : (step :: t).foldl applyStep s = t.foldl applyStep (applyStep s step) := by
      simp
    simp only [isInterleaving, Bool.or_eq_true] at hint
    rcases hint with h1 | h1
    · rcases xs with _ | ⟨x, xs'⟩
      · cases h1
      · dsimp only at h1
        by_cases hsx : step = x
        · rw [if_pos hsx] at h1
          subst hsx
          rcases hA with h | ⟨rest, hxs, htemp⟩
          · cases h
          · rcases rest with _ | ⟨c, rest'⟩
            · simp only [List.map_nil, List.nil_append, List.cons.injEq] at hxs
              obtain ⟨rfl, rfl⟩ := hxs
              simp only [List.append_nil] at htemp
              have happ : applyStep s (.renameTempOverFinal true)
                  = { s with final := some d } := by
                simp [applyStep, htemp]
              have hnext := ih (applyStep s (.renameTempOverFinal true)) [] ys h1
                (Or.inl rfl)
                (by rw [happ]; exact hB)
                (by rw [happ]; exact Or.inr rfl)
                (fun _ => by rw [happ])
                (fun _ => by rw [happ])
              rw [hsteps, hfold]
              exact ⟨by simp [hsok, hnext.1], hnext.2⟩
            · simp only [List.map_cons, List.cons_append, List.cons.injEq] at hxs
              obtain ⟨rfl, rfl⟩ := hxs
              have happ : applyStep s (.writeTempChunk true c)
                  = { s with tempA := s.tempA ++ [c] } := by
                simp [applyStep]
              have hnext := ih (applyStep s (.writeTempChunk true c))
                (rest'.map (WriteStep.writeTempChunk true)
                  ++ [WriteStep.renameTempOverFinal true]) ys h1
                (by
                  rw [happ]
                  exact Or.inr ⟨rest', rfl, by simpa [List.append_assoc] using htemp⟩)
                (by rw [happ]; exact hB)
                (by rw [happ]; exact hfin)
                (fun h => by simp at h)
                (fun h => by rw [happ]; exact hye h)
              rw [hsteps, hfold]
              exact ⟨by simp [hsok, hnext.1], hnext.2⟩
        · rw [if_neg hsx] at h1
          cases h1
    · rcases ys with _ | ⟨y, ys'⟩
      · cases h1
      · dsimp only at h1
        by_cases hsy : step = y
        · rw [if_pos hsy] at h1
          subst hsy
          rcases hB with h | ⟨rest, hys, htemp⟩
          · cases h
          · rcases rest with _ | ⟨c, rest'⟩
            · simp only [List.map_nil, List.nil_append, List.cons.injEq] at hys
              obtain ⟨rfl, rfl⟩ := hys
              simp only [List.append_nil] at htemp
              have happ : applyStep s (.renameTempOverFinal false)
                  = { s with final := some d } := by
                simp [applyStep, htemp]
              have hnext := ih (applyStep s (.renameTempOverFinal false)) xs [] h1
                (by rw [happ]; exact hA)
                (Or.inl rfl)
                (by rw [happ]; exact Or.inr rfl)
                (fun _ => by rw [happ])
                (fun _ => by rw [happ])
              rw [hsteps, hfold]
              exact ⟨by simp [hsok, hnext.1], hnext.2⟩
            · simp only [List.map_cons, List.cons_append, List.cons.injEq] at hys
              obtain ⟨rfl, rfl⟩ := hys
              have happ : applyStep s (.writeTempChunk false c)
                  = { s with tempB := s.tempB ++ [c] } := by
                simp [applyStep]
              have hnext := ih (applyStep s (.writeTempChunk false c)) xs
                (rest'.map (WriteStep.writeTempChunk false)
                  ++ [WriteStep.renameTempOverFinal false]) h1
                (by rw [happ]; exact hA)
                (by
                  rw [happ]
                  exact Or.inr ⟨rest', rfl, by simpa [List.append_assoc] using htemp⟩)
                (by rw [happ]; exact hfin)
                (fun h => by rw [happ]; exact hxe h)
                (fun h => by simp at h)
              rw [hsteps, hfold]
              exact ⟨by simp [hsok, hnext.1], hnext.2⟩
        · rw [if_neg hsy] at h1
          cases h1

/-- C6: under the write-to-temp-then-atomic-rename discipline, for every
dataset and every schedule two independent processes concurrently populating
the same uncached dataset can produce, no reader ever observes a partial
write at the final cache path, and after both processes finish the final path
holds the complete, non-corrupt file. -/
theorem concurrent_cache_writes_safe (d : List Nat) (trace : List WriteStep)
    (htrace : isInterleaving trace (procWriteSteps d true) (procWriteSteps d false)
      = true) :
    traceSafe d trace = true := by
  have h := interleaving_run_safe d trace initialCacheDir
    (procWriteSteps d true) (procWriteSteps d false) htrace
    (Or.inr ⟨d, rfl, by simp [initialCacheDir]⟩)
    (Or.inr ⟨d, rfl, by simp [initialCacheDir]⟩)
    (Or.inl rfl)
    (fun h => by simp [procWriteSteps] at h)
    (fun h => by simp [procWriteSteps] at h)
  unfold traceSafe
  rw [h.1, h.2]
  simp

/-- Concrete run of C6 on a two-chunk dataset and the fully sequential
schedule: writer A streams and renames, then writer B streams and renames. -/
theorem concurrent_cache_writes_safe_witness :
    traceSafe [1, 2] (procWriteSteps [1, 2] true ++ procWriteSteps [1, 2] false)
      = true :=
  concurrent_cache_writes_safe [1, 2]
    (procWriteSteps [1, 2] true ++ procWriteSteps [1, 2] false) (by decide)

/-- One statement of the documented download example, abstracted to the
Python names it reads and the name it binds: a plain assignment (or module
binding), an expression statement, the `with open(path, mode) as handle`
opening of the output file, or the streaming `for` loop that evaluates its
iterator expression and writes every received block to the open file. -/
inductive DocStmt
  | assign (target : String) (reads : List String)
  | exprStmt (reads : List String)
  | openFileWrite (path target : String)
  | forBlockWrite (loopVar : String) (iterReads : List String)
deriving DecidableEq

/-- The dataset-download example of the corpus's "Trading data" page,
statement by statement: the two module bindings of os and requests; then
`api_key = os.environ[...]` (reads os); `session = requests.Session()` (reads
requests); `session.headers.update(...)` (reads session and api_key);
`server = "https..."`; `url = f"..."` (reads server); `params = ...`;
`resp = session.get(url, allow_redirects=True, stream=True, params=params)`
(reads session, url, params); `resp.raise_for_status()` (reads resp); the
`with open('candles.parquet', 'wb') as handle` block; and the streaming loop
`for block in response.iter_content(64*1024)` — whose iterator expression
reads the name `response`, although the HTTP response object was bound to the
name `resp`. -/
def downloadExampleStmts : List DocStmt :=
  [ .assign "os" [],
    .assign "requests" [],
    .assign "api_key" ["os"],
    .assign "session" ["requests"],
    .exprStmt ["session", "api_key"],
    .assign "server" [],
    .assign "url" ["server"],
    .assign "params" [],
    .assign "resp" ["session", "url", "params"],
    .exprStmt ["resp"],
    .openFileWrite "candles.parquet" "handle",
    .forBlockWrite "block" ["response"] ]

/-- The interpreter state of the example: the Python names currently bound,
whether the output file has been created (opening with mode wb creates and
truncates it), and the blocks written to it so far. -/
structure DocRunState where
  boundNames : List String
  fileCreated : Bool
  writtenBlocks : List Nat
deriving DecidableEq

/-- Outcome of running the example: it finished, or it raised a NameError for
an unbound name, leaving the state reached so far. -/
inductive DocRunResult
  | finished (s : DocRunState)
  | nameError (missing : String) (s : DocRunState)
deriving DecidableEq

/-- The first name an expression reads that is not bound in the environment —
exactly the name whose lookup raises a Python NameError. -/
def firstUnbound (env : List String) (reads : List String) : Option String :=
  reads.find? (fun n => !(env.contains n))

/-- Run the example's statements in order, as Python does: each statement
first evaluates the names its expression reads (raising NameError at the
first unbound one), then performs its binding or write.  The streaming loop
evaluates its iterator expression before any iteration, so a NameError there
writes no block at all. -/
def runDocStmts (respBlocks : List Nat) :
    List DocStmt → DocRunState → DocRunResult
  | [], s => .finished s
  | .assign target reads :: rest, s =>
    match firstUnbound s.boundNames reads with
    | some n => .nameError n s
    | none => runDocStmts respBlocks rest { s with boundNames := target :: s.boundNames }
  | .exprStmt reads :: rest, s =>
    match firstUnbound s.boundNames reads with
    | some n => .nameError n s
    | none => runDocStmts respBlocks rest s
  | .openFileWrite _ target :: rest, s =>
    runDocStmts respBlocks rest
      { s with fileCreated := true, boundNames := target :: s.boundNames }
  | .forBlockWrite loopVar iterReads :: rest, s =>
    match firstUnbound s.boundNames iterReads with
    | some n => .nameError n s
    | none =>
      runDocStmts respBlocks rest
        { s with boundNames := loopVar :: s.boundNames,
                 writtenBlocks := s.writtenBlocks ++ respBlocks }

/-- Run the documented download example against an HTTP response whose body
arrives as `respBlocks`. -/
def runDownloadExample (respBlocks : List Nat) : DocRunResult :=
  runDocStmts respBlocks downloadExampleStmts
    { boundNames := [], fileCreated := false, writtenBlocks := [] }

/-- Whether the run raised a NameError for precisely the given name. -/
def DocRunResult.raisesNameErrorOn (r : DocRunResult) (n : String) : Bool :=
  match r with
  | .nameError m _ => m == n
  | .finished _ => false

/-- The blocks the run wrote to the output file. -/
def DocRunResult.blocksWritten : DocRunResult → List Nat
  | .finished s => s.writtenBlocks
  | .nameError _ s => s.writtenBlocks

/-- Whether the run created the output file. -/
def DocRunResult.createdFile : DocRunResult → Bool
  | .finished s => s.fileCreated
  | .nameError _ s => s.fileCreated

/-- C10: for every HTTP response body, the documented download example binds
the response to `resp` but iterates `response.iter_content(64*1024)`, so every
execution reaching the streaming loop raises a NameError for the undefined
name `response`; the output file candles.parquet has been created (truncated)
by then, but not a single block of the body is ever written to it, so no
complete candles.parquet file is ever produced. -/
theorem download_example_raises_nameerror (respBlocks : List Nat) :
    (runDownloadExample respBlocks).raisesNameErrorOn "response" = true
    ∧ (runDownloadExample respBlocks).blocksWritten = []
    ∧ (runDownloadExample respBlocks).createdFile = true :=
  ⟨rfl, rfl, rfl⟩

end TradingStrategy
